import Mathlib

/-!
Verification development for the flocker control-plane replication core
(`flocker/control/_diffing.py` and `flocker/control/_protocol.py`).

The Python objects are shallowly embedded:

* A pyrsistent tree value (`PClass` record, `PMap`, `PSet`, or a primitive
  leaf) becomes the inductive type `Val`.  Leaves carry a natural number
  (the embedding covers one primitive type; equality and inequality of
  leaves is all the diffing code observes of them).  `PMap`s are
  association lists with arbitrary `Val` keys, `PClass` records carry a
  numeric tag standing for their Python class (two records with different
  tags have different `type()`) and a field dictionary, `PSet`s are lists
  of elements.  Python object equality is Lean equality on `Val`; a
  well-formed value (`Val.wf`) has no duplicate mapping keys, record
  fields or set elements, mirroring the dictionary/set semantics.
* Fallible Python code (a raised exception) is `Option`/`Except`.
* The mutable `_EvolverProxy` becomes the functional record `Proxy`,
  updated by explicit state passing.
-/

inductive Val : Type where
  | leaf (n : Nat)
  | pmap (entries : List (Val × Val))
  | pset (items : List Val)
  | prec (tag : Nat) (fields : List (Val × Val))

mutual

/-- Structural (Python `==`) equality test on embedded tree values. -/
def Val.beq : Val → Val → Bool
  | .leaf a, .leaf b => a == b
  | .pmap ea, .pmap eb => beqEntries ea eb
  | .pset xa, .pset xb => beqList xa xb
  | .prec ta ea, .prec tb eb => ta == tb && beqEntries ea eb
  | _, _ => false

/-- Equality test on entry lists of mappings and record field dictionaries. -/
def beqEntries : List (Val × Val) → List (Val × Val) → Bool
  | [], [] => true
  | (ka, va) :: ra, (kb, vb) :: rb => Val.beq ka kb && Val.beq va vb && beqEntries ra rb
  | _, _ => false

/-- Equality test on element lists of sets. -/
def beqList : List Val → List Val → Bool
  | [], [] => true
  | a :: ra, b :: rb => Val.beq a b && beqList ra rb
  | _, _ => false

end

mutual

theorem Val.beq_iff : ∀ a b : Val, Val.beq a b = true ↔ a = b
  | .leaf a, .leaf b => by simp [Val.beq]
  | .pmap ea, .pmap eb => by simp [Val.beq, beqEntries_iff ea eb]
  | .pset xa, .pset xb => by simp [Val.beq, beqList_iff xa xb]
  | .prec ta ea, .prec tb eb => by
      simp [Val.beq, beqEntries_iff ea eb, Bool.and_eq_true]
  | .leaf _, .pmap _ => by simp [Val.beq]
  | .leaf _, .pset _ => by simp [Val.beq]
  | .leaf _, .prec _ _ => by simp [Val.beq]
  | .pmap _, .leaf _ => by simp [Val.beq]
  | .pmap _, .pset _ => by simp [Val.beq]
  | .pmap _, .prec _ _ => by simp [Val.beq]
  | .pset _, .leaf _ => by simp [Val.beq]
  | .pset _, .pmap _ => by simp [Val.beq]
  | .pset _, .prec _ _ => by simp [Val.beq]
  | .prec _ _, .leaf _ => by simp [Val.beq]
  | .prec _ _, .pmap _ => by simp [Val.beq]
  | .prec _ _, .pset _ => by simp [Val.beq]

theorem beqEntries_iff : ∀ ea eb : List (Val × Val), beqEntries ea eb = true ↔ ea = eb
  | [], [] => by simp [beqEntries]
  | (ka, va) :: ra, (kb, vb) :: rb => by
      simp [beqEntries, Val.beq_iff ka kb, Val.beq_iff va vb, beqEntries_iff ra rb,
        Bool.and_eq_true]
  | [], (_, _) :: _ => by simp [beqEntries]
  | (_, _) :: _, [] => by simp [beqEntries]

theorem beqList_iff : ∀ xa xb : List Val, beqList xa xb = true ↔ xa = xb
  | [], [] => by simp [beqList]
  | a :: ra, b :: rb => by
      simp [beqList, Val.beq_iff a b, beqList_iff ra rb, Bool.and_eq_true]
  | [], _ :: _ => by simp [beqList]
  | _ :: _, [] => by simp [beqList]

end

instance : DecidableEq Val := fun a b =>
  decidable_of_iff (Val.beq a b = true) (Val.beq_iff a b)

/-- `True` for values that are pyrsistent objects (they respond to
`.evolver()`): records, mappings and sets.  Primitive leaves are not. -/
def Val.isComposite : Val → Bool
  | .leaf _ => false
  | _ => true

/-- Python `type(a) == type(b)` on embedded tree values: two records are of
the same type iff their class tags agree; all mappings share the type
`PMap`, all sets the type `PSet`. -/
def sameType : Val → Val → Bool
  | .leaf _, .leaf _ => true
  | .pmap _, .pmap _ => true
  | .pset _, .pset _ => true
  | .prec ta _, .prec tb _ => ta == tb
  | _, _ => false

/-- Dictionary lookup in an association list (mapping entries, record
fields, the `_children` dictionary of an evolver proxy, or the
controller's per-connection dictionaries). -/
def alookup {α β : Type} [DecidableEq α] : List (α × β) → α → Option β
  | [], _ => none
  | (k, v) :: rest, key => if k = key then some v else alookup rest key

/-- Dictionary store `d[k] = v`: replaces the value at an existing key in
place, appends a new key at the end (Python dictionaries and pyrsistent
map evolvers preserve insertion order this way). -/
def aupsert {α β : Type} [DecidableEq α] : List (α × β) → α → β → List (α × β)
  | [], key, v => [(key, v)]
  | (k, w) :: rest, key, v =>
    if k = key then (k, v) :: rest else (k, w) :: aupsert rest key v

/-- Dictionary removal `d.pop(k, None)` / `del d[k]`: drops the entry at
the key if one exists. -/
def aerase {α β : Type} [DecidableEq α] : List (α × β) → α → List (α × β)
  | [], _ => []
  | (k, w) :: rest, key => if k = key then rest else (k, w) :: aerase rest key

/-- Set insertion (`PSet.evolver().add`): a no-op when the element is
already a member, otherwise appends it. -/
def sinsert (xs : List Val) (x : Val) : List Val :=
  if x ∈ xs then xs else xs ++ [x]

/-- Set removal: drops the element (the caller has checked membership). -/
def sremove : List Val → Val → List Val
  | [], _ => []
  | y :: rest, x => if y = x then rest else y :: sremove rest x

mutual

/-- Well-formedness of an embedded value: mapping keys, record field names
and set elements are duplicate-free, recursively.  Every value that
denotes a Python `PMap`/`PSet`/`PClass` tree satisfies this. -/
def Val.wf : Val → Bool
  | .leaf _ => true
  | .pmap es => wfEntries es
  | .pset xs => xs.Nodup && wfItems xs
  | .prec _ es => wfEntries es

/-- Entry lists have duplicate-free keys and well-formed keys and values. -/
def wfEntries : List (Val × Val) → Bool
  | [] => true
  | (k, v) :: rest =>
    (alookup rest k).isNone && Val.wf k && Val.wf v && wfEntries rest

/-- All elements of the list are well-formed. -/
def wfItems : List Val → Bool
  | [] => true
  | x :: rest => Val.wf x && wfItems rest

end

/-- One diff change, `flocker/control/_diffing.py`.  `set` is `_Set`
(set a record field or insert-or-overwrite a mapping key at
`path[-1]` of the object at `path[:-1]`), `add` is `_Add` (insert an item
into the set at `path`), `remove` is `_Remove` (remove an item from the
set, or a key from the mapping, at `path`). -/
inductive DiffOp : Type where
  | set (path : List Val) (value : Val)
  | add (path : List Val) (item : Val)
  | remove (path : List Val) (item : Val)
deriving DecidableEq

/-- The path of a diff change. -/
def DiffOp.path : DiffOp → List Val
  | .set p _ => p
  | .add p _ => p
  | .remove p _ => p

/-- `Diff` (`_diffing.py`): the serial application of a vector of changes. -/
structure Diff : Type where
  changes : List DiffOp
deriving DecidableEq

/-- `_create_diffs_for_sets` (`_diffing.py` lines 284-310): changes that
turn `set_a` into `set_b` at `current_path` — a `_Remove` for every
element of `a - b`, then an `_Add` for every element of `b - a`.
(Python iterates `PSet.difference` in unspecified hash order; the
embedding iterates in list order, a fixed deterministic choice.) -/
def _create_diffs_for_sets (current_path : List Val) (set_a set_b : List Val) :
    List DiffOp :=
  ((set_a.filter (fun x => !set_b.contains x)).map
    (fun item => .remove current_path item)) ++
  ((set_b.filter (fun x => !set_a.contains x)).map
    (fun item => .add current_path item))

/-- The second loop of `_create_diffs_for_mappings` (`_diffing.py` lines
342-345): a `_Set` at `path ++ [key]` for every key of `mapping_b` that is
not a key of `mapping_a`. -/
def _mapping_additions (current_path : List Val)
    (mapping_a mapping_b : List (Val × Val)) : List DiffOp :=
  (mapping_b.filter (fun kv => (alookup mapping_a kv.1).isNone)).map
    (fun kv => .set (current_path ++ [kv.1]) kv.2)

/-- The third loop of `_create_diffs_for_mappings` (`_diffing.py` lines
346-349): a `_Remove` of the key at `path` for every key of `mapping_a`
that is not a key of `mapping_b`. -/
def _mapping_removals (current_path : List Val)
    (mapping_a mapping_b : List (Val × Val)) : List DiffOp :=
  (mapping_a.filter (fun kv => (alookup mapping_b kv.1).isNone)).map
    (fun kv => .remove current_path kv.1)

mutual

/-- `_create_diffs_for` (`_diffing.py` lines 353-387): changes that turn
`subobj_a` into `subobj_b` at `current_path`.  Equal values need nothing;
values of different Python types are replaced wholesale with a `_Set`;
records of the same class are diffed as mappings over their field
dictionaries (`_to_dict()`); mappings and sets recurse; anything else is
replaced wholesale.  The mapping case spells out the three loops of
`_create_diffs_for_mappings` (recursive intersection, additions,
removals); the wrapper `_create_diffs_for_mappings` below packages them
under the source's name. -/
def _create_diffs_for (current_path : List Val) (subobj_a subobj_b : Val) :
    List DiffOp :=
  if subobj_a = subobj_b then []
  else if !sameType subobj_a subobj_b then [.set current_path subobj_b]
  else match subobj_a, subobj_b with
    | .prec _ a_dict, .prec _ b_dict =>
      _diffs_for_intersection current_path a_dict b_dict ++
      _mapping_additions current_path a_dict b_dict ++
      _mapping_removals current_path a_dict b_dict
    | .pmap ea, .pmap eb =>
      _diffs_for_intersection current_path ea eb ++
      _mapping_additions current_path ea eb ++
      _mapping_removals current_path ea eb
    | .pset xa, .pset xb => _create_diffs_for_sets current_path xa xb
    | _, _ => [.set current_path subobj_b]

/-- The first loop of `_create_diffs_for_mappings` (`_diffing.py` lines
333-341): over the keys present in both mappings, recurse at
`path ++ [key]` where the two values differ. -/
def _diffs_for_intersection (current_path : List Val)
    (mapping_a mapping_b : List (Val × Val)) : List DiffOp :=
  match mapping_a with
  | [] => []
  | (k, va) :: rest =>
    (match alookup mapping_b k with
     | some vb =>
       if va = vb then [] else _create_diffs_for (current_path ++ [k]) va vb
     | none => []) ++ _diffs_for_intersection current_path rest mapping_b

end

/-- `_create_diffs_for_mappings` (`_diffing.py` lines 313-350): the changes
that turn `mapping_a` into `mapping_b` — the intersection recursion, then
the additions, then the removals. -/
def _create_diffs_for_mappings (current_path : List Val)
    (mapping_a mapping_b : List (Val × Val)) : List DiffOp :=
  _diffs_for_intersection current_path mapping_a mapping_b ++
  _mapping_additions current_path mapping_a mapping_b ++
  _mapping_removals current_path mapping_a mapping_b

/-- `create_diff` (`_diffing.py` lines 390-402): the `Diff` from `object_a`
to `object_b`, computed from the empty path. -/
def create_diff (object_a object_b : Val) : Diff :=
  { changes := _create_diffs_for [] object_a object_b }

/-- `compose_diffs` (`_diffing.py` lines 405-424): concatenation of the
changes of the given diffs, in order. -/
def compose_diffs (iterable_of_diffs : List Diff) : Diff :=
  { changes :=
      iterable_of_diffs.foldl (fun acc d => acc ++ d.changes) [] }

/-- `_EvolverProxy` (`_diffing.py` lines 106-230): `original` is the
wrapped pyrsistent object, `evolver` the staged state of
`original.evolver()` (pyrsistent evolvers apply `set`/`add`/`remove`
eagerly to a buffer; the buffer's current value is embedded directly),
`children` the `_children` dictionary of child proxies keyed by path
segment (or by the item itself, for composite set members). -/
inductive Proxy : Type where
  | mk (original : Val) (evolver : Val) (children : List (Val × Proxy))

/-- `_EvolverProxy.__init__`: wraps a pyrsistent object with a fresh
evolver and no children.  A primitive has no `.evolver()` method, so
construction on a leaf raises (`none`). -/
def Proxy.init (original : Val) : Option Proxy :=
  if original.isComposite then some (.mk original original []) else none

/-- `pyrsistent._transformations._get(structure, segment, default)` as the
diffing code reaches it: field/key lookup in a record or mapping; a set or
a primitive yields no child for any segment. -/
def psGet : Val → Val → Option Val
  | .pmap es, segment => alookup es segment
  | .prec _ es, segment => alookup es segment
  | _, _ => none

/-- `evolver.set(key, value)` on the staged buffer: insert-or-overwrite
for mappings and records.  A `PSet` evolver has no `set` and a primitive
no evolver, so those raise (`none`). -/
def evolverSet : Val → Val → Val → Option Val
  | .pmap es, key, v => some (.pmap (aupsert es key v))
  | .prec t es, key, v => some (.prec t (aupsert es key v))
  | _, _, _ => none

/-- `evolver.add(item)` on the staged buffer: set insertion.  Mappings,
records and primitives raise (`none`). -/
def evolverAdd : Val → Val → Option Val
  | .pset xs, item => some (.pset (sinsert xs item))
  | _, _ => none

/-- `evolver.remove(item)` on the staged buffer: remove a mapping key,
record field or set element.  `none` is the `KeyError` raised when the
item is absent (the caller `Proxy.remove` swallows it). -/
def evolverRemove : Val → Val → Option Val
  | .pmap es, key => if (alookup es key).isSome then some (.pmap (aerase es key)) else none
  | .prec t es, key =>
    if (alookup es key).isSome then some (.prec t (aerase es key)) else none
  | .pset xs, item => if item ∈ xs then some (.pset (sremove xs item)) else none
  | .leaf _, _ => none

/-- `_EvolverProxy.set` (`_diffing.py` lines 175-192): a composite item
becomes a fresh child proxy stored under the key (replacing any existing
proxy); a primitive goes to the evolver. -/
def Proxy.set : Proxy → Val → Val → Option Proxy
  | .mk o e cs, key, item =>
    if item.isComposite then some (.mk o e (aupsert cs key (.mk item item [])))
    else (evolverSet e key item).map (fun e2 => .mk o e2 cs)

/-- `_EvolverProxy.add` (`_diffing.py` lines 158-173): a composite item
becomes a fresh child proxy keyed by the item itself; a primitive goes to
the evolver. -/
def Proxy.add : Proxy → Val → Option Proxy
  | .mk o e cs, item =>
    if item.isComposite then some (.mk o e (aupsert cs item (.mk item item [])))
    else (evolverAdd e item).map (fun e2 => .mk o e2 cs)

/-- `_EvolverProxy.remove` (`_diffing.py` lines 194-212): pop any child
proxy under the item, then try `evolver.remove`, swallowing its
`KeyError` when the item was absent.  Never raises. -/
def Proxy.remove : Proxy → Val → Proxy
  | .mk o e cs, item =>
    match evolverRemove e item with
    | some e2 => .mk o e2 (aerase cs item)
    | none => .mk o e (aerase cs item)

/-- `_EvolverProxy.transform` (`_diffing.py` lines 139-156): walk the path
segments, reusing the child proxy cached in `_children` or creating one
from the segment's value in `original` (`_child`, lines 124-137), then
apply `operation` to the leaf proxy.  A segment missing from `original`
raises `KeyError` and a primitive child has no evolver; both are `none`. -/
def Proxy.transform : Proxy → List Val → (Proxy → Option Proxy) → Option Proxy
  | p, [], operation => operation p
  | .mk o e cs, segment :: rest, operation =>
    match alookup cs segment with
    | some child =>
      (Proxy.transform child rest operation).map
        (fun c2 => .mk o e (aupsert cs segment c2))
    | none =>
      match psGet o segment with
      | none => none
      | some v =>
        match Proxy.init v with
        | none => none
        | some child =>
          (Proxy.transform child rest operation).map
            (fun c2 => .mk o e (aupsert cs segment c2))

/-- One step of `_EvolverProxy.commit`'s loop (`_diffing.py` lines
222-229): a committed child is stored back through `evolver.set` when the
evolver has one (mappings, records) and through `evolver.add` otherwise
(sets).  The leaf case is unreachable: proxies only wrap composites. -/
def commitChild : Val → Val → Val → Val
  | .pmap es, segment, v => .pmap (aupsert es segment v)
  | .prec t es, segment, v => .prec t (aupsert es segment v)
  | .pset xs, _, v => .pset (sinsert xs v)
  | .leaf n, _, _ => .leaf n

mutual

/-- `_EvolverProxy.commit` (`_diffing.py` lines 214-230): commit the child
proxies in dictionary order, store each result into this node's evolver,
and return the evolver's persistent value. -/
def Proxy.commit : Proxy → Val
  | .mk _ e cs => commitChildren e cs

/-- The loop of `_EvolverProxy.commit` over `self._children.items()`. -/
def commitChildren : Val → List (Val × Proxy) → Val
  | e, [] => e
  | e, (segment, child) :: rest =>
    commitChildren (commitChild e segment (Proxy.commit child)) rest

end

/-- The last path segment and the rest, `path[:-1]` and `path[-1]`;
`none` for the empty path. -/
def splitLast : List Val → Option (List Val × Val)
  | [] => none
  | [x] => some ([], x)
  | x :: y :: rest =>
    (splitLast (y :: rest)).map (fun pr => (x :: pr.1, pr.2))

/-- The body of `Diff.apply`'s loop (`_diffing.py` lines 266-271) for one
change: a change with a non-empty path is routed through the proxy
(`_Set.apply` transforms at `path[:-1]` and sets `path[-1]`; `_Add.apply`
and `_Remove.apply` transform at `path`); a change with an empty path
must be a `_Set` (`assert type(c) is _Set` — an empty-path `_Add` or
`_Remove` fails the assertion, `none`) and replaces the whole proxy with
a fresh one wrapping the change's value. -/
def applyChange (proxy : Proxy) : DiffOp → Option Proxy
  | .set path value =>
    match splitLast path with
    | some (pre, last) => proxy.transform pre (fun t => t.set last value)
    | none => Proxy.init value
  | .add path item =>
    if path.isEmpty then none
    else proxy.transform path (fun t => t.add item)
  | .remove path item =>
    if path.isEmpty then none
    else proxy.transform path (fun t => some (t.remove item))

/-- `Diff.apply`'s loop over `self.changes`, left to right. -/
def applyChanges : Proxy → List DiffOp → Option Proxy
  | p, [] => some p
  | p, c :: rest => (applyChange p c).bind (fun p2 => applyChanges p2 rest)

/-- `Diff.apply` (`_diffing.py` lines 264-281): wrap the object in an
evolver proxy, route every change through it, and commit.  Any exception
(a missing path segment, a primitive where an evolver is needed, a failed
assertion) propagates as `none`. -/
def Diff.apply (d : Diff) (obj : Val) : Option Val :=
  match Proxy.init obj with
  | none => none
  | some p => (applyChanges p d.changes).map Proxy.commit

/-!
`flocker/control/_protocol.py`.
-/

/-- Twisted AMP's per-value byte limit, `MAX_VALUE_LENGTH` (0xffff). -/
def MAX_VALUE_LENGTH : Nat := 65535

namespace Big

/-- `Big.toBox` (`_protocol.py` lines 93-111): the serialized value (a
byte string, embedded as a list of bytes) is read in chunks of at most
`MAX_VALUE_LENGTH` until a read returns nothing; chunk number `i` of the
result is what the box stores under the key `"name.i"`.  A zero-length
value produces no chunks at all. -/
def toBox (value : List Nat) : List (List Nat) :=
  if value.isEmpty then []
  else value.take MAX_VALUE_LENGTH :: toBox (value.drop MAX_VALUE_LENGTH)
termination_by value.length
decreasing_by
  rename_i h
  simp only [List.isEmpty_iff] at h
  have hlen : value.length ≠ 0 := fun hz => h (List.eq_nil_of_length_eq_zero hz)
  simp only [List.length_drop, MAX_VALUE_LENGTH]
  omega

/-- The loop of `Big.fromBox` (`_protocol.py` lines 124-131): consecutive
chunks `name.0, name.1, …` are appended to the accumulating buffer, and
`strings[name] = value.getvalue()` re-stores the joined bytes after every
chunk; the loop stops at the first missing index.  `result` is what
`strings[name]` holds: it stays `none` — the key is never written — when
there is no chunk at all. -/
def fromBoxLoop : List (List Nat) → List Nat → Option (List Nat) → Option (List Nat)
  | [], _, result => result
  | chunk :: rest, buffered, _ =>
    fromBoxLoop rest (buffered ++ chunk) (some (buffered ++ chunk))

/-- `Big.fromBox` (`_protocol.py` lines 113-132): reassemble the chunks;
`none` when `strings[name]` was never populated (the wrapped argument's
decoder then fails on a missing value). -/
def fromBox (chunks : List (List Nat)) : Option (List Nat) :=
  fromBoxLoop chunks [] none

end Big

/-- Modelled from the spec: `make_generation_hash` lives in
`flocker/control/_persistence.py`, which is not among the repository
files provided; the spec (§3) requires only a deterministic content hash
with `hash(A) == hash(B)` iff `A == B`.  The identity function has
exactly that property, and the protocol code only ever compares hashes
for equality, so generation hashes are embedded as the values
themselves. -/
def make_generation_hash (v : Val) : Val := v

/-- The configuration/state slots of `_AgentLocator` (`_protocol.py`
lines 979-1002), all initially `None`. -/
structure AgentLocator : Type where
  current_configuration : Option Val
  current_configuration_generation : Option Val
  current_state : Option Val
  current_state_generation : Option Val
deriving DecidableEq

/-- `_AgentLocator._current_generations_response` (`_protocol.py` lines
1060-1076): the pair `(current_configuration_generation,
current_state_generation)` sent back to the control node. -/
def _current_generations_response (s : AgentLocator) : Option Val × Option Val :=
  (s.current_configuration_generation, s.current_state_generation)

/-- `_AgentLocator._set_configuration` (`_protocol.py` lines 1025-1042):
recompute the hash of the new configuration; a mismatch with
`verify_hash` raises `ValueError` (`error`) before anything is assigned,
otherwise both configuration slots are assigned. -/
def _set_configuration (s : AgentLocator) (configuration verify_hash : Val) :
    Except Unit AgentLocator :=
  let candidate_hash := make_generation_hash configuration
  if candidate_hash ≠ verify_hash then .error ()
  else .ok { s with
    current_configuration := some configuration,
    current_configuration_generation := some candidate_hash }

/-- `_AgentLocator._set_state` (`_protocol.py` lines 1044-1058): the state
counterpart of `_set_configuration`. -/
def _set_state (s : AgentLocator) (state verify_hash : Val) :
    Except Unit AgentLocator :=
  let candidate_hash := make_generation_hash state
  if candidate_hash ≠ verify_hash then .error ()
  else .ok { s with
    current_state := some state,
    current_state_generation := some candidate_hash }

/-- `_AgentLocator._update_cluster` (`_protocol.py` lines 1088-1103):
`_set_configuration`, then `_set_state`, then notify the agent (the
notification callback is outside this embedding's scope).  The returned
flag is `true` when a `ValueError` escaped; the returned locator is the
object as the exception leaves it — a failure in `_set_state` keeps the
assignments `_set_configuration` already made. -/
def _update_cluster (s : AgentLocator)
    (configuration configuration_generation state state_generation : Val) :
    AgentLocator × Bool :=
  match _set_configuration s configuration configuration_generation with
  | .error _ => (s, true)
  | .ok s1 =>
    match _set_state s1 state state_generation with
    | .error _ => (s1, true)
    | .ok s2 => (s2, false)

/-- `_AgentLocator.cluster_updated` (`_protocol.py` lines 1105-1124), the
`UPDATE_FULL` responder: update the cluster from the received values and
answer with the current generations; an escaped `ValueError` produces no
response (`none`). -/
def cluster_updated (s : AgentLocator)
    (configuration configuration_generation state state_generation : Val) :
    AgentLocator × Option (Option Val × Option Val) :=
  let r := _update_cluster s configuration configuration_generation state state_generation
  (r.1, if r.2 then none else some (_current_generations_response r.1))

/-- `_AgentLocator.cluster_updated_diff` (`_protocol.py` lines 1126-1174),
the `UPDATE_DIFF` responder: a start generation differing from the
corresponding current generation answers with the current generations
without applying anything; otherwise both diffs are applied (a raise
while applying, `none`, leaves the locator untouched and produces no
response) and `_update_cluster` adopts the results against the end
generations. -/
def cluster_updated_diff (s : AgentLocator) (configuration_diff : Diff)
    (start_configuration_generation end_configuration_generation : Val)
    (state_diff : Diff) (start_state_generation end_state_generation : Val) :
    AgentLocator × Option (Option Val × Option Val) :=
  if s.current_configuration_generation ≠ some start_configuration_generation then
    (s, some (_current_generations_response s))
  else if s.current_state_generation ≠ some start_state_generation then
    (s, some (_current_generations_response s))
  else
    match s.current_configuration.bind (fun c => configuration_diff.apply c) with
    | none => (s, none)
    | some new_configuration =>
      match s.current_state.bind (fun st => state_diff.apply st) with
      | none => (s, none)
      | some new_state =>
        let r := _update_cluster s new_configuration
          end_configuration_generation new_state end_state_generation
        (r.1, if r.2 then none else some (_current_generations_response r.1))

/-- `_ConfigAndStateGeneration` (`_protocol.py` lines 582-592): the pair
of hashes most recently acknowledged by a connection, both initially
`None`. -/
structure _ConfigAndStateGeneration : Type where
  config_hash : Option Val
  state_hash : Option Val
deriving DecidableEq

/-- Modelled from the spec: `GenerationTracker` lives in
`flocker/control/_generations.py`, which is not among the repository
files provided.  Per spec §4.3 it holds the latest value and, for every
hash still resident in its bounded window, a diff from that hash's value
to the latest; `get_diff_from_hash_to_latest` returns `NONE` exactly for
hashes that are not resident.  The window is embedded as an association
list from hash to diff (boundedness does not matter to the claims
settled against this model). -/
structure GenerationTracker : Type where
  latest : Val
  resident_diffs : List (Val × Diff)

/-- Modelled from the spec: `GenerationTracker.get_latest`. -/
def GenerationTracker.get_latest (t : GenerationTracker) : Val := t.latest

/-- Modelled from the spec: `GenerationTracker.get_latest_hash`. -/
def GenerationTracker.get_latest_hash (t : GenerationTracker) : Val :=
  make_generation_hash t.latest

/-- Modelled from the spec: `GenerationTracker.get_diff_from_hash_to_latest`,
`NONE` iff the hash is not resident (a `None` hash — a newly connected
agent that has acknowledged nothing — is never resident). -/
def GenerationTracker.get_diff_from_hash_to_latest (t : GenerationTracker)
    (h : Option Val) : Option Diff :=
  match h with
  | none => none
  | some hv => alookup t.resident_diffs hv

/-- The command `_update_connection` sends (`_protocol.py` lines 781-821):
either `ClusterStatusDiffCommand` with both diffs and the start and end
generations, or `ClusterStatusCommand` with the latest values and their
generations. -/
inductive UpdateCommand : Type where
  | clusterStatusDiff (configuration_diff : Diff)
      (start_configuration_generation : Option Val)
      (end_configuration_generation : Val)
      (state_diff : Diff)
      (start_state_generation : Option Val)
      (end_state_generation : Val)
  | clusterStatus (configuration : Val) (configuration_generation : Val)
      (state : Val) (state_generation : Val)
deriving DecidableEq

/-- The send decision of `ControlAMPService._update_connection`
(`_protocol.py` lines 745-822), taken after `insert_latest` has run on
both trackers: ask each tracker for a diff from the connection's last
acknowledged hash; if both diffs exist send `ClusterStatusDiffCommand`,
otherwise send `ClusterStatusCommand` with the latest values. -/
def _update_connection_command
    (config_gen_tracker state_gen_tracker : GenerationTracker)
    (last_received_generations : _ConfigAndStateGeneration) : UpdateCommand :=
  let configuration_diff := config_gen_tracker.get_diff_from_hash_to_latest
    last_received_generations.config_hash
  let state_diff := state_gen_tracker.get_diff_from_hash_to_latest
    last_received_generations.state_hash
  match configuration_diff, state_diff with
  | some cd, some sd =>
    .clusterStatusDiff cd last_received_generations.config_hash
      config_gen_tracker.get_latest_hash
      sd last_received_generations.state_hash
      state_gen_tracker.get_latest_hash
  | _, _ =>
    .clusterStatus config_gen_tracker.get_latest
      config_gen_tracker.get_latest_hash
      state_gen_tracker.get_latest
      state_gen_tracker.get_latest_hash

/-- `_UpdateState` (`_protocol.py` lines 562-572) for one connection,
extended with the number of follow-up continuations attached to the
pending response (each `_delayed_update_connection` call attaches one
`addCallback` that re-schedules the connection when the response
arrives). -/
structure _UpdateState : Type where
  next_scheduled : Bool
  response_callbacks : Nat
deriving DecidableEq

/-- The three per-connection outcomes of
`ControlAMPService._send_state_to_connections` (`_protocol.py` lines
693-714): send now, delay (schedule one follow-up), or elide. -/
inductive SendDecision : Type where
  | sendNow
  | delayed
  | elided
deriving DecidableEq

/-- One connection's share of a broadcast (`_send_state_to_connections`,
lines 693-743): no tracking entry — `_update_connection` sends at once
and records `_UpdateState(next_scheduled=False)`; an entry with
`next_scheduled` — nothing happens (elided); an entry without it —
`_delayed_update_connection` (lines 848-863) attaches one follow-up
callback to the pending response and sets `next_scheduled=True`. -/
def broadcastStep (current_command : Option _UpdateState) :
    Option _UpdateState × SendDecision :=
  match current_command with
  | none => (some ⟨false, 0⟩, .sendNow)
  | some u =>
    if u.next_scheduled then (some u, .elided)
    else (some ⟨true, u.response_callbacks + 1⟩, .delayed)

/-- A response (or failure) arriving for the connection's pending update:
`finished_update` (lines 829-846) deletes the tracking entry, and every
follow-up callback attached to the response fires, each scheduling one
more update.  The returned number counts those follow-ups. -/
def ackStep (current_command : Option _UpdateState) :
    Option _UpdateState × Nat :=
  match current_command with
  | none => (none, 0)
  | some u => (none, u.response_callbacks)

/-- The events one connection's tracking entry sees. -/
inductive ConnEvent : Type where
  | broadcast
  | ack
deriving DecidableEq

/-- The connection's tracking entry after a sequence of events, starting
from no entry. -/
def runConn : Option _UpdateState → List ConnEvent → Option _UpdateState
  | s, [] => s
  | s, .broadcast :: rest => runConn (broadcastStep s).1 rest
  | s, .ack :: rest => runConn (ackStep s).1 rest

/-- The slice of `ControlAMPService` state that the acknowledgement
bookkeeping touches (`_protocol.py` lines 626-633 and 824-846):
the connection set, the per-connection acknowledged generations
(a `defaultdict`, so an absent key reads as a fresh
`_ConfigAndStateGeneration()` with both hashes `None`), the set of
connections pending an update, and the latest hashes held by the two
generation trackers. -/
structure ControlAMPService : Type where
  connections : List Nat
  last_received_generation : List (Nat × _ConfigAndStateGeneration)
  connections_pending_update : List Nat
  latest_configuration_hash : Val
  latest_state_hash : Val

/-- `ControlAMPService._schedule_update` (`_protocol.py` lines 896-918):
add the connections to the pending set (the delayed batching call is a
timing concern outside this embedding). -/
def _schedule_update (s : ControlAMPService) (conns : List Nat) :
    ControlAMPService :=
  { s with connections_pending_update :=
      (conns.foldl
        (fun pending c => if c ∈ pending then pending else pending ++ [c])
        s.connections_pending_update) }

/-- The controller events that touch the acknowledgement bookkeeping:
`connected` (lines 865-873), `disconnected` (lines 875-885), an update
being sent to a connection (`_update_connection`, which reads the
`defaultdict` entry — creating the default — and never writes it), a
response arriving (`finished_update`, lines 829-846, with the two hashes
it carries), and a failed update (the errback turns the response into
`None`, so `finished_update` only drops the tracking entry). -/
inductive CtlEvent : Type where
  | connected (conn : Nat)
  | disconnected (conn : Nat)
  | updateSent (conn : Nat)
  | finishedUpdate (conn : Nat) (config_gen state_gen : Val)
  | updateFailed (conn : Nat)
deriving DecidableEq

/-- One controller event applied to the bookkeeping state. -/
def ctlStep (s : ControlAMPService) : CtlEvent → ControlAMPService
  | .connected conn =>
    _schedule_update
      { s with connections :=
          if conn ∈ s.connections then s.connections else s.connections ++ [conn] }
      [conn]
  | .disconnected conn =>
    { s with
      connections := s.connections.filter (fun c => c ≠ conn),
      connections_pending_update :=
        s.connections_pending_update.filter (fun c => c ≠ conn),
      last_received_generation := aerase s.last_received_generation conn }
  | .updateSent conn =>
    { s with last_received_generation :=
        (match alookup s.last_received_generation conn with
         | some _ => s.last_received_generation
         | none => s.last_received_generation ++ [(conn, ⟨none, none⟩)]) }
  | .finishedUpdate conn config_gen state_gen =>
    let s1 := { s with last_received_generation :=
      (aupsert s.last_received_generation conn ⟨some config_gen, some state_gen⟩) }
    if s.latest_configuration_hash ≠ config_gen ∨
        s.latest_state_hash ≠ state_gen then
      _schedule_update s1 [conn]
    else s1
  | .updateFailed _ => s

/-- The value reached by walking the path segments from `v` through
records and mappings (`pyrsistent` path resolution as `psGet` models it);
`none` when a segment is missing. -/
def pathGet : Val → List Val → Option Val
  | v, [] => some v
  | v, segment :: rest =>
    match psGet v segment with
    | some c => pathGet c rest
    | none => none

/-!
Supporting lemmas.
-/

theorem applyChanges_append (p : Proxy) (xs ys : List DiffOp) :
    applyChanges p (xs ++ ys) =
      (applyChanges p xs).bind (fun q => applyChanges q ys) := by
  induction xs generalizing p with
  | nil => simp [applyChanges]
  | cons c rest ih =>
    simp only [List.cons_append, applyChanges]
    cases applyChange p c with
    | none => simp
    | some p2 => simp [ih p2]

theorem aupsert_self {α β : Type} [DecidableEq α] (l : List (α × β)) (k : α)
    (v : β) (h : alookup l k = some v) : aupsert l k v = l := by
  induction l with
  | nil => simp [alookup] at h
  | cons kw rest ih =>
    obtain ⟨k0, w0⟩ := kw
    by_cases hk : k0 = k
    · subst hk
      simp [alookup] at h
      simp [aupsert, h]
    · simp [alookup, hk] at h
      simp [aupsert, hk, ih h]

theorem alookup_aupsert_same {α β : Type} [DecidableEq α] (l : List (α × β))
    (k : α) (v : β) : alookup (aupsert l k v) k = some v := by
  induction l with
  | nil => simp [aupsert, alookup]
  | cons kw rest ih =>
    obtain ⟨k0, w0⟩ := kw
    by_cases hk : k0 = k
    · subst hk; simp [aupsert, alookup]
    · simp [aupsert, hk, alookup, ih]

theorem alookup_aupsert_other {α β : Type} [DecidableEq α] (l : List (α × β))
    (k c : α) (v : β) (h : c ≠ k) :
    alookup (aupsert l k v) c = alookup l c := by
  have h2 : ¬ k = c := fun e => h e.symm
  induction l with
  | nil => simp [aupsert, alookup, h2]
  | cons kw rest ih =>
    obtain ⟨k0, w0⟩ := kw
    by_cases hk : k0 = k
    · subst hk
      simp [aupsert, alookup, h2]
    · simp [aupsert, hk, alookup]
      by_cases hc : k0 = c <;> simp [hc, ih]

theorem commit_init (v : Val) : Proxy.commit (.mk v v []) = v := by
  simp [Proxy.commit, commitChildren]

theorem transform_preserve (path : List Val) :
    ∀ (t c : Val) (f : Proxy → Option Proxy),
      pathGet t path = some c → c.isComposite = true →
      (∃ q2, f (Proxy.mk c c []) = some q2 ∧ Proxy.commit q2 = c) →
      t.isComposite = true →
      ∃ p2, Proxy.transform (Proxy.mk t t []) path f = some p2 ∧
        Proxy.commit p2 = t := by
  induction path with
  | nil =>
    intro t c f hget hc hf ht
    simp only [pathGet, Option.some_inj] at hget
    subst hget
    obtain ⟨q2, hq, hcommit⟩ := hf
    exact ⟨q2, by simpa [Proxy.transform] using hq, hcommit⟩
  | cons s rest ih =>
    intro t c f hget hc hf ht
    simp only [pathGet] at hget
    cases hv : psGet t s with
    | none => rw [hv] at hget; simp at hget
    | some v =>
      rw [hv] at hget
      have hvc : v.isComposite = true := by
        cases rest with
        | nil =>
          simp only [pathGet, Option.some_inj] at hget
          subst hget; exact hc
        | cons s2 r2 =>
          simp only [pathGet] at hget
          cases hv2 : psGet v s2 with
          | none => rw [hv2] at hget; simp at hget
          | some w =>
            cases v with
            | leaf n => simp [psGet] at hv2
            | pmap es => simp [Val.isComposite]
            | pset xs => simp [psGet] at hv2
            | prec tg es => simp [Val.isComposite]
      obtain ⟨c2, htrans, hcommit2⟩ := ih v c f hget hc hf hvc
      refine ⟨Proxy.mk t t [(s, c2)], ?_, ?_⟩
      · simp [Proxy.transform, alookup, hv, Proxy.init, hvc, htrans, aupsert]
      · show Proxy.commit (Proxy.mk t t [(s, c2)]) = t
        have : Proxy.commit (Proxy.mk t t [(s, c2)]) =
            commitChild t s (Proxy.commit c2) := by
          simp [Proxy.commit, commitChildren]
        rw [this, hcommit2]
        cases t with
        | pmap es =>
          simp only [psGet] at hv
          simp [commitChild, aupsert_self es s v hv]
        | prec tg es =>
          simp only [psGet] at hv
          simp [commitChild, aupsert_self es s v hv]
        | pset xs => simp [psGet] at hv
        | leaf n => simp [psGet] at hv

/-!
The claims.
-/

/-- C1.  The diff round-trip `apply(A, diff(A, B)) == B` fails on the
code: for the root mappings `A = {0: 0}` and `B = {}`, `create_diff`
emits `_Remove(path=[], item=0)`, and `Diff.apply` asserts that every
change with an empty path is a `_Set` (`assert type(c) is _Set`,
`_diffing.py` line 270), so applying the diff raises `AssertionError`
instead of producing `B`. -/
theorem c1_roundtrip_failing_input :
    create_diff (Val.pmap [(.leaf 0, .leaf 0)]) (Val.pmap []) =
      Diff.mk [DiffOp.remove [] (Val.leaf 0)] ∧
    (create_diff (Val.pmap [(.leaf 0, .leaf 0)]) (Val.pmap [])).apply
      (Val.pmap [(.leaf 0, .leaf 0)]) = none := by
  decide

/-- C2.  Compose is not sequential application: for
`A = {0: {0: 1}}`, `B = {0: {0: 2}}`, `C = {0: 7}`, each diff applied in
serial takes `A` to `B` to `C`, but the composed diff applied to `A`
yields `B`, not `C` — `Diff.apply` stages the recursive update of key `0`
in a child evolver proxy, and `_EvolverProxy.commit` stores committed
children into the evolver after the later root-level `set(0, 7)`, so the
child's value overwrites the 7. -/
theorem c2_compose_failing_input :
    (create_diff (Val.pmap [(.leaf 0, .pmap [(.leaf 0, .leaf 1)])])
        (Val.pmap [(.leaf 0, .pmap [(.leaf 0, .leaf 2)])])).apply
      (Val.pmap [(.leaf 0, .pmap [(.leaf 0, .leaf 1)])]) =
      some (Val.pmap [(.leaf 0, .pmap [(.leaf 0, .leaf 2)])]) ∧
    (create_diff (Val.pmap [(.leaf 0, .pmap [(.leaf 0, .leaf 2)])])
        (Val.pmap [(.leaf 0, .leaf 7)])).apply
      (Val.pmap [(.leaf 0, .pmap [(.leaf 0, .leaf 2)])]) =
      some (Val.pmap [(.leaf 0, .leaf 7)]) ∧
    (compose_diffs
        [create_diff (Val.pmap [(.leaf 0, .pmap [(.leaf 0, .leaf 1)])])
          (Val.pmap [(.leaf 0, .pmap [(.leaf 0, .leaf 2)])]),
         create_diff (Val.pmap [(.leaf 0, .pmap [(.leaf 0, .leaf 2)])])
          (Val.pmap [(.leaf 0, .leaf 7)])]).apply
      (Val.pmap [(.leaf 0, .pmap [(.leaf 0, .leaf 1)])]) =
      some (Val.pmap [(.leaf 0, .pmap [(.leaf 0, .leaf 2)])]) ∧
    Val.pmap [(.leaf 0, .pmap [(.leaf 0, .leaf 2)])] ≠
      Val.pmap [(.leaf 0, .leaf 7)] := by
  decide

/-- C8 counterexample.  The claim quantifies over every tree `t`, but a
primitive root has no `.evolver()`: `Diff.apply` constructs
`_EvolverProxy(original=obj)` before looking at any change, so applying
the root-replacing patch `[SET([], {})]` to the leaf `0` raises
`AttributeError` (`none`) instead of yielding the new root. -/
theorem c8_counterexample :
    (Diff.mk [DiffOp.set [] (Val.pmap [])]).apply (Val.leaf 0) = none ∧
    (Diff.mk [DiffOp.set [] (Val.pmap [])]).apply (Val.leaf 0) ≠
      some (Val.pmap []) := by
  decide

/-- C8, amended.  For a composite tree `t` (a record, mapping or set —
anything with an evolver), once the changes before the empty-path `SET`
have applied, the empty-path `SET` discards the current proxy entirely:
the rest of the patch behaves exactly as a patch applied to the `SET`'s
value, whatever `t` and the earlier changes were; and when the new root
is itself composite, a patch ending at the root-replacement yields
exactly that value. -/
theorem c8_root_replacement (t v : Val) (ops1 rest : List DiffOp)
    (p0 p1 : Proxy) (h0 : Proxy.init t = some p0)
    (h1 : applyChanges p0 ops1 = some p1) :
    (Diff.mk (ops1 ++ DiffOp.set [] v :: rest)).apply t =
      (Diff.mk rest).apply v ∧
    (v.isComposite = true →
      (Diff.mk (ops1 ++ [DiffOp.set [] v])).apply t = some v) := by
  have general : ∀ r : List DiffOp,
      (Diff.mk (ops1 ++ DiffOp.set [] v :: r)).apply t =
        (Diff.mk r).apply v := by
    intro r
    simp only [Diff.apply, h0]
    rw [applyChanges_append, h1]
    simp only [Option.bind_some, applyChanges, applyChange, splitLast]
    cases hv : Proxy.init v with
    | none => simp
    | some q => simp
  refine ⟨general rest, fun hcomp => ?_⟩
  rw [general []]
  simp only [Diff.apply, Proxy.init, hcomp, if_pos]
  simp [applyChanges, commit_init]

/-- C8 witness: the amended theorem at `t = pset()`, `v = pmap()`, with no
changes before or after the root replacement. -/
theorem c8_witness :
    (Diff.mk ([] ++ DiffOp.set [] (Val.pmap []) :: [])).apply (Val.pset []) =
      (Diff.mk []).apply (Val.pmap []) ∧
    ((Val.pmap []).isComposite = true →
      (Diff.mk ([] ++ [DiffOp.set [] (Val.pmap [])])).apply (Val.pset []) =
        some (Val.pmap [])) :=
  c8_root_replacement (Val.pset []) (Val.pmap []) [] []
    (Proxy.mk (Val.pset []) (Val.pset []) [])
    (Proxy.mk (Val.pset []) (Val.pset []) []) rfl rfl

/-- C10 counterexample.  The claim quantifies over every patch, but a
`_Remove` whose path is empty fails `Diff.apply`'s
`assert type(c) is _Set` (`_diffing.py` line 270) even when its item is
absent from the root collection: removing the absent `5` from the root
set raises `AssertionError` instead of being a silent no-op. -/
theorem c10_counterexample :
    (Diff.mk [DiffOp.remove [] (Val.leaf 5)]).apply (Val.pset []) = none ∧
    (Diff.mk [DiffOp.remove [] (Val.leaf 5)]).apply (Val.pset []) ≠
      some (Val.pset []) := by
  decide

/-- C10, amended.  A `_Remove` with a non-empty path whose item is absent
from the mapping or set at that path is a silent no-op: `_EvolverProxy.remove`
pops the (absent) child and swallows the evolver's `KeyError`, so applying
the one-change patch raises nothing and returns the tree unchanged. -/
theorem c10_silent_remove (t : Val) (path : List Val) (item c : Val)
    (hne : path ≠ [])
    (hget : pathGet t path = some c)
    (hcol : (∃ es, c = Val.pmap es ∧ alookup es item = none) ∨
            (∃ xs, c = Val.pset xs ∧ item ∉ xs)) :
    (Diff.mk [DiffOp.remove path item]).apply t = some t := by
  obtain ⟨s, rest, rfl⟩ : ∃ s rest, path = s :: rest := by
    cases path with
    | nil => exact absurd rfl hne
    | cons s rest => exact ⟨s, rest, rfl⟩
  have hcc : c.isComposite = true := by
    rcases hcol with ⟨es, rfl, _⟩ | ⟨xs, rfl, _⟩ <;> simp [Val.isComposite]
  simp only [pathGet] at hget
  cases hv : psGet t s with
  | none => rw [hv] at hget; simp at hget
  | some v =>
    rw [hv] at hget
    have htc : t.isComposite = true := by
      cases t with
      | leaf n => simp [psGet] at hv
      | pmap es => simp [Val.isComposite]
      | pset xs => simp [psGet] at hv
      | prec tg es => simp [Val.isComposite]
    have hstep : ∃ q2,
        (fun q => some (Proxy.remove q item)) (Proxy.mk c c []) = some q2 ∧
        Proxy.commit q2 = c := by
      refine ⟨Proxy.remove (Proxy.mk c c []) item, rfl, ?_⟩
      rcases hcol with ⟨es, rfl, habs⟩ | ⟨xs, rfl, habs⟩
      · simp [Proxy.remove, evolverRemove, habs, aerase, commit_init]
      · simp [Proxy.remove, evolverRemove, habs, aerase, commit_init]
    have hpath : pathGet t (s :: rest) = some c := by
      simp only [pathGet, hv]; exact hget
    obtain ⟨p2, htrans, hcommit⟩ :=
      transform_preserve (s :: rest) t c
        (fun q => some (Proxy.remove q item)) hpath hcc hstep htc
    simp only [Diff.apply, Proxy.init, htc, if_pos]
    simp only [applyChanges, applyChange, List.isEmpty_cons, Bool.false_eq_true,
      if_neg, htrans]
    simp [hcommit]

/-- C10 witness: removing the absent element `5` from the set at key `9`
leaves the tree `{9: {1}}` unchanged. -/
theorem c10_witness :
    (Diff.mk [DiffOp.remove [Val.leaf 9] (Val.leaf 5)]).apply
      (Val.pmap [(Val.leaf 9, Val.pset [Val.leaf 1])]) =
      some (Val.pmap [(Val.leaf 9, Val.pset [Val.leaf 1])]) :=
  c10_silent_remove (Val.pmap [(Val.leaf 9, Val.pset [Val.leaf 1])])
    [Val.leaf 9] (Val.leaf 5) (Val.pset [Val.leaf 1])
    (by decide) rfl (Or.inr ⟨[Val.leaf 1], rfl, by decide⟩)

theorem toBox_flatten (bs : List Nat) : (Big.toBox bs).flatten = bs := by
  induction bs using Big.toBox.induct with
  | case1 value hemp =>
    rw [Big.toBox, if_pos hemp]
    simp [List.isEmpty_iff.mp hemp]
  | case2 value hemp ih =>
    rw [Big.toBox, if_neg hemp]
    simp [List.flatten, ih]

theorem toBox_ne_nil (bs : List Nat) (h : bs ≠ []) : Big.toBox bs ≠ [] := by
  rw [Big.toBox, if_neg (by simpa [List.isEmpty_iff] using h)]
  simp

theorem toBox_chunk_le (bs : List Nat) :
    ∀ c ∈ Big.toBox bs, c.length ≤ MAX_VALUE_LENGTH := by
  induction bs using Big.toBox.induct with
  | case1 value hemp => simp [Big.toBox, hemp]
  | case2 value hemp ih =>
    rw [Big.toBox, if_neg hemp]
    intro c hc
    rcases List.mem_cons.mp hc with rfl | hc
    · simp [List.length_take_le]
    · exact ih c hc

theorem fromBoxLoop_join (cs : List (List Nat)) : ∀ (acc : List Nat)
    (r : Option (List Nat)), cs ≠ [] →
    Big.fromBoxLoop cs acc r = some (acc ++ cs.flatten) := by
  induction cs with
  | nil => intro _ _ h; exact absurd rfl h
  | cons c rest ih =>
    intro acc r _
    simp only [Big.fromBoxLoop]
    by_cases hrest : rest = []
    · subst hrest
      simp [Big.fromBoxLoop, List.flatten]
    · rw [ih (acc ++ c) _ hrest]
      simp [List.flatten, List.append_assoc]

/-- C9 counterexample.  For a zero-length serialized value `Big.toBox`
stores no fragment at all (`value.read` returns nothing at once), and
`Big.fromBox` writes `strings[name]` only inside its chunk loop, so with
zero fragments the reassembled key is never populated: the round trip
does not return the original empty byte string. -/
theorem c9_counterexample :
    Big.toBox [] = [] ∧
    Big.fromBox (Big.toBox []) = none ∧
    Big.fromBox (Big.toBox []) ≠ some [] := by
  refine ⟨by rw [Big.toBox]; simp, ?_, ?_⟩ <;>
    simp [Big.fromBox, Big.fromBoxLoop, (by rw [Big.toBox]; simp : Big.toBox ([] : List Nat) = [])]

/-- C9, amended.  For every non-empty serialized value, splitting with
`Big.toBox` into consecutive numbered fragments of at most
`MAX_VALUE_LENGTH` bytes and reassembling with `Big.fromBox` yields
exactly the original bytes — including values whose length is an exact
multiple of the chunk size.  The zero-length value is the exception: it
produces no fragments and is not reassembled. -/
theorem c9_big_roundtrip (bs : List Nat) (h : bs ≠ []) :
    Big.fromBox (Big.toBox bs) = some bs ∧
    ∀ c ∈ Big.toBox bs, c.length ≤ MAX_VALUE_LENGTH := by
  refine ⟨?_, toBox_chunk_le bs⟩
  rw [Big.fromBox, fromBoxLoop_join (Big.toBox bs) [] none (toBox_ne_nil bs h)]
  simp [toBox_flatten]

/-- C9 witness: the round trip at the one-byte value `[0]`. -/
theorem c9_witness :
    Big.fromBox (Big.toBox [0]) = some [0] ∧
    ∀ c ∈ Big.toBox [0], c.length ≤ MAX_VALUE_LENGTH :=
  c9_big_roundtrip [0] (by decide)

/-- C3 counterexample.  An `UPDATE_DIFF` whose start generations both
match, whose configuration diff applies and verifies, but whose state
generation is wrong: `_update_cluster` runs `_set_configuration` before
`_set_state`, so when `_set_state` raises `ValueError` the agent's
configuration has already been replaced — the update is partially
applied, contradicting the claim that a failed verification leaves the
configuration and state completely unchanged. -/
theorem c3_counterexample :
    (cluster_updated_diff
        ⟨some (Val.pmap []), some (Val.pmap []),
         some (Val.pset []), some (Val.pset [])⟩
        (Diff.mk [DiffOp.set [] (Val.pmap [(Val.leaf 0, Val.leaf 1)])])
        (Val.pmap []) (Val.pmap [(Val.leaf 0, Val.leaf 1)])
        (Diff.mk []) (Val.pset []) (Val.leaf 9)).1.current_configuration =
      some (Val.pmap [(Val.leaf 0, Val.leaf 1)]) ∧
    (cluster_updated_diff
        ⟨some (Val.pmap []), some (Val.pmap []),
         some (Val.pset []), some (Val.pset [])⟩
        (Diff.mk [DiffOp.set [] (Val.pmap [(Val.leaf 0, Val.leaf 1)])])
        (Val.pmap []) (Val.pmap [(Val.leaf 0, Val.leaf 1)])
        (Diff.mk []) (Val.pset []) (Val.leaf 9)).1.current_configuration ≠
      some (Val.pmap []) ∧
    (cluster_updated_diff
        ⟨some (Val.pmap []), some (Val.pmap []),
         some (Val.pset []), some (Val.pset [])⟩
        (Diff.mk [DiffOp.set [] (Val.pmap [(Val.leaf 0, Val.leaf 1)])])
        (Val.pmap []) (Val.pmap [(Val.leaf 0, Val.leaf 1)])
        (Diff.mk []) (Val.pset []) (Val.leaf 9)).2 = none := by
  decide

/-- C3, amended.  The agent's verification behaviour, exactly as
implemented: a start-generation mismatch (configuration first, then
state) returns the current generations without applying anything; a
raise while applying either diff leaves everything unchanged with no
response; a configuration-hash mismatch leaves everything unchanged and
raises; but when the configuration verifies and the state hash fails,
the configuration (value and generation) has already been adopted and
only the state is left unchanged — the update is partially applied.  The
same holds for the full-snapshot responder `cluster_updated`.  Both
update both values, verify and respond only when every hash matches. -/
theorem c3_update_verification (s : AgentLocator) (cd sd : Diff)
    (scg ecg ssg esg nc ns conf cg st sg : Val) :
    (s.current_configuration_generation ≠ some scg →
      cluster_updated_diff s cd scg ecg sd ssg esg =
        (s, some (_current_generations_response s))) ∧
    (s.current_configuration_generation = some scg →
      s.current_state_generation ≠ some ssg →
      cluster_updated_diff s cd scg ecg sd ssg esg =
        (s, some (_current_generations_response s))) ∧
    (s.current_configuration_generation = some scg →
      s.current_state_generation = some ssg →
      s.current_configuration.bind (fun c => cd.apply c) = none →
      cluster_updated_diff s cd scg ecg sd ssg esg = (s, none)) ∧
    (s.current_configuration_generation = some scg →
      s.current_state_generation = some ssg →
      s.current_configuration.bind (fun c => cd.apply c) = some nc →
      s.current_state.bind (fun t => sd.apply t) = none →
      cluster_updated_diff s cd scg ecg sd ssg esg = (s, none)) ∧
    (s.current_configuration_generation = some scg →
      s.current_state_generation = some ssg →
      s.current_configuration.bind (fun c => cd.apply c) = some nc →
      s.current_state.bind (fun t => sd.apply t) = some ns →
      make_generation_hash nc ≠ ecg →
      cluster_updated_diff s cd scg ecg sd ssg esg = (s, none)) ∧
    (s.current_configuration_generation = some scg →
      s.current_state_generation = some ssg →
      s.current_configuration.bind (fun c => cd.apply c) = some nc →
      s.current_state.bind (fun t => sd.apply t) = some ns →
      make_generation_hash nc = ecg →
      make_generation_hash ns ≠ esg →
      cluster_updated_diff s cd scg ecg sd ssg esg =
        ({ s with
            current_configuration := some nc,
            current_configuration_generation :=
              some (make_generation_hash nc) }, none)) ∧
    (s.current_configuration_generation = some scg →
      s.current_state_generation = some ssg →
      s.current_configuration.bind (fun c => cd.apply c) = some nc →
      s.current_state.bind (fun t => sd.apply t) = some ns →
      make_generation_hash nc = ecg →
      make_generation_hash ns = esg →
      cluster_updated_diff s cd scg ecg sd ssg esg =
        (⟨some nc, some (make_generation_hash nc),
          some ns, some (make_generation_hash ns)⟩,
         some (some (make_generation_hash nc),
           some (make_generation_hash ns)))) ∧
    (make_generation_hash conf ≠ cg →
      cluster_updated s conf cg st sg = (s, none)) ∧
    (make_generation_hash conf = cg → make_generation_hash st ≠ sg →
      cluster_updated s conf cg st sg =
        ({ s with
            current_configuration := some conf,
            current_configuration_generation :=
              some (make_generation_hash conf) }, none)) ∧
    (make_generation_hash conf = cg → make_generation_hash st = sg →
      cluster_updated s conf cg st sg =
        (⟨some conf, some (make_generation_hash conf),
          some st, some (make_generation_hash st)⟩,
         some (some (make_generation_hash conf),
           some (make_generation_hash st)))) := by
  refine ⟨fun h1 => ?_, fun h1 h2 => ?_, fun h1 h2 h3 => ?_,
    fun h1 h2 h3 h4 => ?_, fun h1 h2 h3 h4 h5 => ?_,
    fun h1 h2 h3 h4 h5 h6 => ?_, fun h1 h2 h3 h4 h5 h6 => ?_,
    fun h1 => ?_, fun h1 h2 => ?_, fun h1 h2 => ?_⟩
  · simp [cluster_updated_diff, h1]
  · simp [cluster_updated_diff, h1, h2]
  · simp [cluster_updated_diff, h1, h2, h3]
  · simp [cluster_updated_diff, h1, h2, h3, h4]
  · simp [cluster_updated_diff, h1, h2, h3, h4, _update_cluster,
      _set_configuration, h5]
  · simp [cluster_updated_diff, h1, h2, h3, h4, _update_cluster,
      _set_configuration, _set_state, h5, h6]
  · simp [cluster_updated_diff, h1, h2, h3, h4, _update_cluster,
      _set_configuration, _set_state, h5, h6,
      _current_generations_response]
  · simp [cluster_updated, _update_cluster, _set_configuration, h1]
  · simp [cluster_updated, _update_cluster, _set_configuration,
      _set_state, h1, h2]
  · simp [cluster_updated, _update_cluster, _set_configuration,
      _set_state, h1, h2, _current_generations_response]

/-- C3 witness: the amended theorem at the counterexample's input (plus a
full update with a wrong configuration hash), every hypothesis checked
concretely. -/
theorem c3_witness :
    (cluster_updated_diff
        ⟨some (Val.pmap []), some (Val.pmap []),
         some (Val.pset []), some (Val.pset [])⟩
        (Diff.mk [DiffOp.set [] (Val.pmap [(Val.leaf 0, Val.leaf 1)])])
        (Val.pmap []) (Val.pmap [(Val.leaf 0, Val.leaf 1)])
        (Diff.mk []) (Val.pset []) (Val.leaf 9)) =
      ({ (⟨some (Val.pmap []), some (Val.pmap []),
          some (Val.pset []), some (Val.pset [])⟩ : AgentLocator) with
          current_configuration := some (Val.pmap [(Val.leaf 0, Val.leaf 1)]),
          current_configuration_generation :=
            some (make_generation_hash (Val.pmap [(Val.leaf 0, Val.leaf 1)])) },
       none) :=
  ((c3_update_verification
      ⟨some (Val.pmap []), some (Val.pmap []),
       some (Val.pset []), some (Val.pset [])⟩
      (Diff.mk [DiffOp.set [] (Val.pmap [(Val.leaf 0, Val.leaf 1)])])
      (Diff.mk []) (Val.pmap []) (Val.pmap [(Val.leaf 0, Val.leaf 1)])
      (Val.pset []) (Val.leaf 9) (Val.pmap [(Val.leaf 0, Val.leaf 1)])
      (Val.pset []) (Val.leaf 0) (Val.leaf 0) (Val.leaf 0)
      (Val.leaf 0)).2.2.2.2.2.1) rfl rfl (by decide) (by decide)
    (by decide) (by decide)

/-- C5.  The controller sends `ClusterStatusDiffCommand` — carrying both
diffs, the connection's acknowledged hashes as start generations and the
trackers' latest hashes as end generations — exactly when both trackers
return a diff for the connection's acknowledged hashes; in every other
case, including a newly connected agent whose acknowledged hashes are
still `None`, it sends `ClusterStatusCommand` with the latest
configuration and state values and their hashes. -/
theorem c5_diff_or_full (t1 t2 : GenerationTracker)
    (lr : _ConfigAndStateGeneration) :
    ((∃ cd sd,
        _update_connection_command t1 t2 lr =
          .clusterStatusDiff cd lr.config_hash t1.get_latest_hash
            sd lr.state_hash t2.get_latest_hash ∧
        t1.get_diff_from_hash_to_latest lr.config_hash = some cd ∧
        t2.get_diff_from_hash_to_latest lr.state_hash = some sd) ↔
      ((t1.get_diff_from_hash_to_latest lr.config_hash).isSome ∧
        (t2.get_diff_from_hash_to_latest lr.state_hash).isSome)) ∧
    (¬ ((t1.get_diff_from_hash_to_latest lr.config_hash).isSome ∧
        (t2.get_diff_from_hash_to_latest lr.state_hash).isSome) →
      _update_connection_command t1 t2 lr =
        .clusterStatus t1.get_latest t1.get_latest_hash
          t2.get_latest t2.get_latest_hash) ∧
    (_update_connection_command t1 t2 ⟨none, none⟩ =
      .clusterStatus t1.get_latest t1.get_latest_hash
        t2.get_latest t2.get_latest_hash) := by
  refine ⟨?_, ?_, ?_⟩
  · rcases hc : t1.get_diff_from_hash_to_latest lr.config_hash with _ | cd <;>
      rcases hs : t2.get_diff_from_hash_to_latest lr.state_hash with _ | sd <;>
      simp [_update_connection_command, hc, hs]
  · rcases hc : t1.get_diff_from_hash_to_latest lr.config_hash with _ | cd <;>
      rcases hs : t2.get_diff_from_hash_to_latest lr.state_hash with _ | sd <;>
      simp [_update_connection_command, hc, hs]
  · simp [_update_connection_command, GenerationTracker.get_diff_from_hash_to_latest]

/-- C5 witness: a tracker pair holding no resident diffs and a fresh
connection with no acknowledged hashes gets the full snapshot. -/
theorem c5_witness :
    _update_connection_command ⟨Val.leaf 0, []⟩ ⟨Val.leaf 1, []⟩ ⟨none, none⟩ =
      .clusterStatus (Val.leaf 0) (make_generation_hash (Val.leaf 0))
        (Val.leaf 1) (make_generation_hash (Val.leaf 1)) :=
  ((c5_diff_or_full ⟨Val.leaf 0, []⟩ ⟨Val.leaf 1, []⟩ ⟨none, none⟩).2.1)
    (by decide)

theorem runConn_inv (es : List ConnEvent) :
    ∀ s : Option _UpdateState,
      (∀ u, s = some u →
        ((u.next_scheduled = true ↔ u.response_callbacks = 1) ∧
          u.response_callbacks ≤ 1)) →
      ∀ u, runConn s es = some u →
        ((u.next_scheduled = true ↔ u.response_callbacks = 1) ∧
          u.response_callbacks ≤ 1) := by
  induction es with
  | nil => intro s hs u hu; exact hs u hu
  | cons e rest ih =>
    intro s hs
    cases e with
    | broadcast =>
      refine ih (broadcastStep s).1 ?_
      cases s with
      | none =>
        intro u hu
        simp only [broadcastStep] at hu
        obtain rfl := Option.some_inj.mp hu
        simp
      | some u0 =>
        intro u hu
        by_cases hns : u0.next_scheduled = true
        · simp only [broadcastStep, hns, if_pos] at hu
          obtain rfl := Option.some_inj.mp hu
          exact hs u0 rfl
        · simp only [broadcastStep, hns, if_neg, Bool.false_eq_true] at hu
          obtain rfl := Option.some_inj.mp hu
          obtain ⟨hiff, hle⟩ := hs u0 rfl
          have : u0.response_callbacks = 0 := by
            rcases Nat.lt_or_ge u0.response_callbacks 1 with h1 | h1
            · omega
            · exact absurd (hiff.mpr (by omega)) hns
          simp [this]
    | ack =>
      refine ih (ackStep s).1 ?_
      cases s with
      | none => intro u hu; simp [ackStep] at hu
      | some u0 => intro u hu; simp [ackStep] at hu

/-- C6.  The inflight bookkeeping for one connection, over any sequence
of broadcasts and acknowledgements: a broadcast finds at most one
unacknowledged inflight update (the single optional `_UpdateState`
entry) and sends immediately exactly when there is none; an inflight
entry without a scheduled follow-up gets exactly one follow-up callback
attached (`next_scheduled` flips to true and the callback count rises to
one); an entry already scheduled causes nothing — the update is elided —
so at every reachable state the number of attached follow-up callbacks
is at most one (and is one exactly when `next_scheduled` is set), and an
acknowledgement fires at most one follow-up. -/
theorem c6_inflight_elision (es : List ConnEvent) :
    (∀ u, runConn none es = some u →
      ((u.next_scheduled = true ↔ u.response_callbacks = 1) ∧
        u.response_callbacks ≤ 1)) ∧
    ((ackStep (runConn none es)).2 ≤ 1) ∧
    (∀ s : Option _UpdateState,
      ((broadcastStep s).2 = SendDecision.sendNow ↔ s = none) ∧
      ((broadcastStep s).2 = SendDecision.elided ↔
        (∃ u, s = some u ∧ u.next_scheduled = true)) ∧
      ((broadcastStep s).2 = SendDecision.delayed ↔
        (∃ u, s = some u ∧ u.next_scheduled = false)) ∧
      (∀ u, s = some u → u.next_scheduled = false →
        (broadcastStep s).1 =
          some ⟨true, u.response_callbacks + 1⟩)) := by
  have hinv := runConn_inv es none (by intro u hu; simp at hu)
  refine ⟨hinv, ?_, ?_⟩
  · cases hr : runConn none es with
    | none => simp [ackStep]
    | some u =>
      have := (hinv u hr).2
      simp [ackStep, this]
  · intro s
    cases s with
    | none => simp [broadcastStep]
    | some u =>
      by_cases hns : u.next_scheduled = true <;>
        simp [broadcastStep, hns]

/-- C6 witness: after a send and two further broadcasts the entry holds
exactly one follow-up callback, and a third broadcast is elided. -/
theorem c6_witness :
    (∀ u, runConn none [ConnEvent.broadcast, ConnEvent.broadcast,
        ConnEvent.broadcast] = some u →
      ((u.next_scheduled = true ↔ u.response_callbacks = 1) ∧
        u.response_callbacks ≤ 1)) ∧
    ((ackStep (runConn none [ConnEvent.broadcast, ConnEvent.broadcast,
        ConnEvent.broadcast])).2 ≤ 1) ∧
    (∀ s : Option _UpdateState,
      ((broadcastStep s).2 = SendDecision.sendNow ↔ s = none) ∧
      ((broadcastStep s).2 = SendDecision.elided ↔
        (∃ u, s = some u ∧ u.next_scheduled = true)) ∧
      ((broadcastStep s).2 = SendDecision.delayed ↔
        (∃ u, s = some u ∧ u.next_scheduled = false)) ∧
      (∀ u, s = some u → u.next_scheduled = false →
        (broadcastStep s).1 =
          some ⟨true, u.response_callbacks + 1⟩)) :=
  c6_inflight_elision [ConnEvent.broadcast, ConnEvent.broadcast,
    ConnEvent.broadcast]

theorem alookup_eq_none_iff {α β : Type} [DecidableEq α] (l : List (α × β))
    (k : α) : alookup l k = none ↔ k ∉ l.map Prod.fst := by
  induction l with
  | nil => simp [alookup]
  | cons kw rest ih =>
    obtain ⟨k0, w0⟩ := kw
    by_cases hk : k0 = k
    · subst hk; simp [alookup]
    · rw [alookup, if_neg hk, ih]
      simp only [List.map_cons, List.mem_cons]
      constructor
      · intro h hor
        exact hor.elim (fun he => hk he.symm) h
      · intro h hm
        exact h (Or.inr hm)

theorem alookup_aerase_self {α β : Type} [DecidableEq α] (l : List (α × β))
    (k : α) (hnd : (l.map Prod.fst).Nodup) : alookup (aerase l k) k = none := by
  induction l with
  | nil => simp [aerase, alookup]
  | cons kw rest ih =>
    obtain ⟨k0, w0⟩ := kw
    simp only [List.map_cons, List.nodup_cons] at hnd
    by_cases hk : k0 = k
    · subst hk
      simp only [aerase, if_pos rfl]
      exact (alookup_eq_none_iff rest k0).mpr hnd.1
    · simp [aerase, hk, alookup, ih hnd.2]

theorem alookup_aerase_other {α β : Type} [DecidableEq α] (l : List (α × β))
    (k c : α) (h : c ≠ k) : alookup (aerase l k) c = alookup l c := by
  induction l with
  | nil => simp [aerase]
  | cons kw rest ih =>
    obtain ⟨k0, w0⟩ := kw
    by_cases hk : k0 = k
    · subst hk
      have h2 : ¬ k0 = c := fun e => h e.symm
      simp [aerase, alookup, h2]
    · simp only [aerase, if_neg hk, alookup]
      by_cases hc : k0 = c <;> simp [hc, ih]

theorem alookup_append_some {α β : Type} [DecidableEq α] (l l2 : List (α × β))
    (c : α) (v : β) (h : alookup l c = some v) :
    alookup (l ++ l2) c = some v := by
  induction l with
  | nil => simp [alookup] at h
  | cons kw rest ih =>
    obtain ⟨k0, w0⟩ := kw
    by_cases hk : k0 = c
    · subst hk
      simp [alookup] at h
      simp [alookup, h]
    · simp only [alookup, if_neg hk] at h
      simp [alookup, hk, ih h]

theorem lastgen_ctlStep_finished (s : ControlAMPService) (c2 : Nat)
    (cg sg : Val) :
    (ctlStep s (CtlEvent.finishedUpdate c2 cg sg)).last_received_generation =
      aupsert s.last_received_generation c2 ⟨some cg, some sg⟩ := by
  simp only [ctlStep]
  split <;> rfl

/-- C7.  The controller's per-connection acknowledged hashes change only
when an update response arrives from that connection: no other event —
connecting, disconnecting (which destroys the record), sending an update
(which at most materializes the `defaultdict` default), or a failed
update — ever changes a present record's value, and the response event
sets the record to exactly the hashes the response carried, scheduling
another update for that connection exactly when they differ from the
controller's latest hashes. -/
theorem c7_acked_hashes (s : ControlAMPService) (e : CtlEvent) (c : Nat)
    (g g2 : _ConfigAndStateGeneration)
    (hnd : (s.last_received_generation.map Prod.fst).Nodup) :
    (alookup s.last_received_generation c = some g →
      alookup (ctlStep s e).last_received_generation c = some g2 →
      g ≠ g2 →
      ∃ cg sg, e = CtlEvent.finishedUpdate c cg sg ∧
        g2 = ⟨some cg, some sg⟩) ∧
    (∀ cg sg,
      (alookup
          (ctlStep s (CtlEvent.finishedUpdate c cg sg)).last_received_generation
          c = some ⟨some cg, some sg⟩) ∧
      ((s.latest_configuration_hash ≠ cg ∨ s.latest_state_hash ≠ sg) →
        c ∈ (ctlStep s
          (CtlEvent.finishedUpdate c cg sg)).connections_pending_update) ∧
      (s.latest_configuration_hash = cg → s.latest_state_hash = sg →
        (ctlStep s
            (CtlEvent.finishedUpdate c cg sg)).connections_pending_update =
          s.connections_pending_update)) := by
  constructor
  · intro h1 h2 hne
    cases e with
    | connected c2 =>
      simp only [ctlStep, _schedule_update] at h2
      rw [h1] at h2
      exact absurd (Option.some_inj.mp h2) hne
    | disconnected c2 =>
      simp only [ctlStep] at h2
      by_cases hc : c = c2
      · subst hc
        rw [alookup_aerase_self s.last_received_generation c hnd] at h2
        exact absurd h2 (by simp)
      · rw [alookup_aerase_other s.last_received_generation c2 c hc, h1] at h2
        exact absurd (Option.some_inj.mp h2) hne
    | updateSent c2 =>
      simp only [ctlStep] at h2
      rcases hl : alookup s.last_received_generation c2 with _ | w
      · rw [hl] at h2
        rw [alookup_append_some s.last_received_generation _ c g h1] at h2
        exact absurd (Option.some_inj.mp h2) hne
      · rw [hl, h1] at h2
        exact absurd (Option.some_inj.mp h2) hne
    | finishedUpdate c2 cg sg =>
      rw [lastgen_ctlStep_finished] at h2
      by_cases hc : c = c2
      · subst hc
        rw [alookup_aupsert_same] at h2
        exact ⟨cg, sg, rfl, (Option.some_inj.mp h2).symm⟩
      · rw [alookup_aupsert_other s.last_received_generation c2 c _ hc,
          h1] at h2
        exact absurd (Option.some_inj.mp h2) hne
    | updateFailed c2 =>
      simp only [ctlStep] at h2
      rw [h1] at h2
      exact absurd (Option.some_inj.mp h2) hne
  · intro cg sg
    refine ⟨?_, ?_, ?_⟩
    · rw [lastgen_ctlStep_finished]
      exact alookup_aupsert_same s.last_received_generation c _
    · intro hdiff
      have hcond : (s.latest_configuration_hash ≠ cg ∨
          s.latest_state_hash ≠ sg) = True := by simp [hdiff]
      simp only [ctlStep, if_pos (of_eq_true hcond), _schedule_update,
        List.foldl]
      split
      · assumption
      · simp
    · intro hc hs
      simp [ctlStep, hc, hs]

/-- C7 witness: a controller remembering `(0, 0)` for connection `1`
receives a response carrying hash `2` for both; the record becomes
`(2, 2)` and, the latest hashes being `0`, another update is scheduled. -/
theorem c7_witness :
    (alookup (ControlAMPService.mk [1]
        [(1, ⟨some (Val.leaf 0), some (Val.leaf 0)⟩)] [] (Val.leaf 0)
        (Val.leaf 0)).last_received_generation 1 =
      some ⟨some (Val.leaf 0), some (Val.leaf 0)⟩ →
      alookup (ctlStep (ControlAMPService.mk [1]
          [(1, ⟨some (Val.leaf 0), some (Val.leaf 0)⟩)] [] (Val.leaf 0)
          (Val.leaf 0))
          (CtlEvent.finishedUpdate 1 (Val.leaf 2)
            (Val.leaf 2))).last_received_generation 1 =
        some ⟨some (Val.leaf 2), some (Val.leaf 2)⟩ →
      (⟨some (Val.leaf 0), some (Val.leaf 0)⟩ : _ConfigAndStateGeneration) ≠
        ⟨some (Val.leaf 2), some (Val.leaf 2)⟩ →
      ∃ cg sg, CtlEvent.finishedUpdate 1 (Val.leaf 2) (Val.leaf 2) =
        CtlEvent.finishedUpdate 1 cg sg ∧
        (⟨some (Val.leaf 2), some (Val.leaf 2)⟩ : _ConfigAndStateGeneration)
          = ⟨some cg, some sg⟩) ∧
    (∀ cg sg,
      (alookup
          (ctlStep (ControlAMPService.mk [1]
              [(1, ⟨some (Val.leaf 0), some (Val.leaf 0)⟩)] [] (Val.leaf 0)
              (Val.leaf 0))
            (CtlEvent.finishedUpdate 1 cg sg)).last_received_generation
          1 = some ⟨some cg, some sg⟩) ∧
      (((Val.leaf 0) ≠ cg ∨ (Val.leaf 0) ≠ sg) →
        1 ∈ (ctlStep (ControlAMPService.mk [1]
            [(1, ⟨some (Val.leaf 0), some (Val.leaf 0)⟩)] [] (Val.leaf 0)
            (Val.leaf 0))
          (CtlEvent.finishedUpdate 1 cg sg)).connections_pending_update) ∧
      ((Val.leaf 0) = cg → (Val.leaf 0) = sg →
        (ctlStep (ControlAMPService.mk [1]
            [(1, ⟨some (Val.leaf 0), some (Val.leaf 0)⟩)] [] (Val.leaf 0)
            (Val.leaf 0))
          (CtlEvent.finishedUpdate 1 cg sg)).connections_pending_update =
          [])) :=
  c7_acked_hashes
    (ControlAMPService.mk [1] [(1, ⟨some (Val.leaf 0), some (Val.leaf 0)⟩)]
      [] (Val.leaf 0) (Val.leaf 0))
    (CtlEvent.finishedUpdate 1 (Val.leaf 2) (Val.leaf 2)) 1
    ⟨some (Val.leaf 0), some (Val.leaf 0)⟩
    ⟨some (Val.leaf 2), some (Val.leaf 2)⟩ (by decide)

theorem wfEntries_keys_nodup (es : List (Val × Val))
    (h : wfEntries es = true) : (es.map Prod.fst).Nodup := by
  induction es with
  | nil => simp
  | cons kv rest ih =>
    obtain ⟨k, v⟩ := kv
    simp only [wfEntries, Bool.and_eq_true] at h
    obtain ⟨⟨⟨hlk, _⟩, _⟩, hrest⟩ := h
    simp only [List.map_cons, List.nodup_cons]
    refine ⟨?_, ih hrest⟩
    rw [← alookup_eq_none_iff rest k]
    exact Option.isNone_iff_eq_none.mp hlk

theorem mem_iff_alookup {α β : Type} [DecidableEq α] (l : List (α × β))
    (hnd : (l.map Prod.fst).Nodup) (k : α) (v : β) :
    (k, v) ∈ l ↔ alookup l k = some v := by
  induction l with
  | nil => simp [alookup]
  | cons kw rest ih =>
    obtain ⟨k0, w0⟩ := kw
    simp only [List.map_cons, List.nodup_cons] at hnd
    by_cases hk : k0 = k
    · subst hk
      simp only [alookup, if_pos rfl, if_true, eq_self_iff_true,
        List.mem_cons, Option.some_inj, Prod.mk.injEq, true_and]
      constructor
      · rintro (rfl | hm2)
        · rfl
        · exact absurd (List.mem_map.mpr ⟨(k0, v), hm2, rfl⟩) hnd.1
      · intro h
        exact Or.inl h.symm
    · simp only [alookup, if_neg hk, List.mem_cons]
      rw [← ih hnd.2]
      constructor
      · rintro (he | hm)
        · exact absurd (congrArg Prod.fst he).symm hk
        · exact hm
      · exact Or.inr

theorem mem_diffs_for_intersection (path : List Val) (eb : List (Val × Val)) :
    ∀ (ea : List (Val × Val)), wfEntries ea = true →
    ∀ op, op ∈ _diffs_for_intersection path ea eb ↔
      ∃ k va vb, alookup ea k = some va ∧ alookup eb k = some vb ∧
        va ≠ vb ∧ op ∈ _create_diffs_for (path ++ [k]) va vb := by
  intro ea
  induction ea with
  | nil =>
    intro _ op
    simp [_diffs_for_intersection, alookup]
  | cons kv rest ih =>
    intro hwf op
    obtain ⟨k0, va0⟩ := kv
    simp only [wfEntries, Bool.and_eq_true] at hwf
    obtain ⟨⟨⟨hlk0, _⟩, _⟩, hwfrest⟩ := hwf
    have hlk0n : alookup rest k0 = none := Option.isNone_iff_eq_none.mp hlk0
    have split_rhs :
        (∃ k va vb, alookup ((k0, va0) :: rest) k = some va ∧
          alookup eb k = some vb ∧ va ≠ vb ∧
          op ∈ _create_diffs_for (path ++ [k]) va vb) ↔
        ((∃ vb, alookup eb k0 = some vb ∧ va0 ≠ vb ∧
            op ∈ _create_diffs_for (path ++ [k0]) va0 vb) ∨
          (∃ k va vb, alookup rest k = some va ∧ alookup eb k = some vb ∧
            va ≠ vb ∧ op ∈ _create_diffs_for (path ++ [k]) va vb)) := by
      constructor
      · rintro ⟨k, va, vb, hka, hkb, hne, hop⟩
        by_cases hk : k0 = k
        · subst hk
          simp only [alookup, if_pos rfl, if_true, Option.some_inj] at hka
          subst hka
          exact Or.inl ⟨vb, hkb, hne, hop⟩
        · rw [alookup, if_neg hk] at hka
          exact Or.inr ⟨k, va, vb, hka, hkb, hne, hop⟩
      · rintro (⟨vb, hkb, hne, hop⟩ | ⟨k, va, vb, hka, hkb, hne, hop⟩)
        · exact ⟨k0, va0, vb, by simp [alookup], hkb, hne, hop⟩
        · refine ⟨k, va, vb, ?_, hkb, hne, hop⟩
          have hk : ¬ k0 = k := by
            intro he
            subst he
            rw [hlk0n] at hka
            exact Option.noConfusion hka
          rw [alookup, if_neg hk]
          exact hka
    rw [split_rhs, ← ih hwfrest op]
    simp only [_diffs_for_intersection, List.mem_append]
    cases hkb : alookup eb k0 with
    | none => simp
    | some vb0 =>
      by_cases hv : va0 = vb0
      · subst hv
        simp
      · simp only [if_neg hv, Option.some_inj]
        constructor
        · rintro (hop | hop)
          · exact Or.inl ⟨vb0, rfl, hv, hop⟩
          · exact Or.inr hop
        · rintro (⟨vb, he, hne, hop⟩ | hop)
          · subst he
            exact Or.inl hop
          · exact Or.inr hop

theorem mem_mapping_additions (path : List Val) (ea eb : List (Val × Val))
    (hb : wfEntries eb = true) :
    ∀ op, op ∈ _mapping_additions path ea eb ↔
      ∃ k vb, alookup ea k = none ∧ alookup eb k = some vb ∧
        op = DiffOp.set (path ++ [k]) vb := by
  intro op
  simp only [_mapping_additions, List.mem_map, List.mem_filter]
  constructor
  · rintro ⟨⟨k, vb⟩, ⟨hmem, hnone⟩, rfl⟩
    exact ⟨k, vb, Option.isNone_iff_eq_none.mp hnone,
      (mem_iff_alookup eb (wfEntries_keys_nodup eb hb) k vb).mp hmem, rfl⟩
  · rintro ⟨k, vb, hnone, hsome, rfl⟩
    exact ⟨(k, vb),
      ⟨(mem_iff_alookup eb (wfEntries_keys_nodup eb hb) k vb).mpr hsome,
       by simp [hnone]⟩, rfl⟩

theorem mem_mapping_removals (path : List Val) (ea eb : List (Val × Val))
    (ha : wfEntries ea = true) :
    ∀ op, op ∈ _mapping_removals path ea eb ↔
      ∃ k va, alookup ea k = some va ∧ alookup eb k = none ∧
        op = DiffOp.remove path k := by
  intro op
  simp only [_mapping_removals, List.mem_map, List.mem_filter]
  constructor
  · rintro ⟨⟨k, va⟩, ⟨hmem, hnone⟩, rfl⟩
    exact ⟨k, va,
      (mem_iff_alookup ea (wfEntries_keys_nodup ea ha) k va).mp hmem,
      Option.isNone_iff_eq_none.mp hnone, rfl⟩
  · rintro ⟨k, va, hsome, hnone, rfl⟩
    exact ⟨(k, va),
      ⟨(mem_iff_alookup ea (wfEntries_keys_nodup ea ha) k va).mpr hsome,
       by simp [hnone]⟩, rfl⟩

theorem mem_create_diffs_for_sets (path : List Val) (xa xb : List Val) :
    ∀ op, op ∈ _create_diffs_for_sets path xa xb ↔
      ((∃ x, x ∈ xa ∧ x ∉ xb ∧ op = DiffOp.remove path x) ∨
       (∃ x, x ∈ xb ∧ x ∉ xa ∧ op = DiffOp.add path x)) := by
  intro op
  simp only [_create_diffs_for_sets, List.mem_append, List.mem_map,
    List.mem_filter, Bool.not_eq_eq_eq_not, Bool.not_true]
  constructor
  · rintro (⟨x, ⟨hx, hnx⟩, rfl⟩ | ⟨x, ⟨hx, hnx⟩, rfl⟩)
    · exact Or.inl ⟨x, hx, by simpa using hnx, rfl⟩
    · exact Or.inr ⟨x, hx, by simpa using hnx, rfl⟩
  · rintro (⟨x, hx, hnx, rfl⟩ | ⟨x, hx, hnx, rfl⟩)
    · exact Or.inl ⟨x, ⟨hx, by simpa using hnx⟩, rfl⟩
    · exact Or.inr ⟨x, ⟨hx, by simpa using hnx⟩, rfl⟩

/-- C4.  What the diff of two mappings, two sets, or two records of the
same class contains — exactly: for mappings, the recursive diffs at
`path ++ [k]` for every key `k` present in both with differing values, a
`SET(path ++ [k], b[k])` for every key only in `b`, and a
`REMOVE(path, k)` for every key only in `a`; for sets, a
`REMOVE(path, x)` for every `x ∈ a - b` and an `ADD(path, x)` for every
`x ∈ b - a`; and records of the same class are diffed as mappings over
their field dictionaries. -/
theorem c4_diff_contents (path : List Val) (ea eb : List (Val × Val))
    (xa xb : List Val) (t : Nat)
    (ha : wfEntries ea = true) (hb : wfEntries eb = true) :
    (∀ op, op ∈ _create_diffs_for path (Val.pmap ea) (Val.pmap eb) ↔
      ((∃ k va vb, alookup ea k = some va ∧ alookup eb k = some vb ∧
          va ≠ vb ∧ op ∈ _create_diffs_for (path ++ [k]) va vb) ∨
       (∃ k vb, alookup ea k = none ∧ alookup eb k = some vb ∧
          op = DiffOp.set (path ++ [k]) vb) ∨
       (∃ k va, alookup ea k = some va ∧ alookup eb k = none ∧
          op = DiffOp.remove path k))) ∧
    (∀ op, op ∈ _create_diffs_for path (Val.pset xa) (Val.pset xb) ↔
      ((∃ x, x ∈ xa ∧ x ∉ xb ∧ op = DiffOp.remove path x) ∨
       (∃ x, x ∈ xb ∧ x ∉ xa ∧ op = DiffOp.add path x))) ∧
    (Val.prec t ea ≠ Val.prec t eb →
      _create_diffs_for path (Val.prec t ea) (Val.prec t eb) =
        _create_diffs_for_mappings path ea eb) := by
  refine ⟨?_, ?_, ?_⟩
  · intro op
    by_cases heq : Val.pmap ea = Val.pmap eb
    · have hee : ea = eb := by simpa using heq
      subst hee
      rw [_create_diffs_for, if_pos rfl]
      simp only [List.not_mem_nil, false_iff]
      rintro (⟨k, va, vb, h1, h2, hne, -⟩ | ⟨k, vb, h1, h2, -⟩ |
        ⟨k, va, h1, h2, -⟩)
      · rw [h1] at h2
        exact hne (Option.some_inj.mp h2)
      · rw [h1] at h2
        exact Option.noConfusion h2
      · rw [h2] at h1
        exact Option.noConfusion h1
    · rw [_create_diffs_for, if_neg heq]
      show op ∈ _diffs_for_intersection path ea eb ++
          _mapping_additions path ea eb ++ _mapping_removals path ea eb ↔ _
      rw [List.append_assoc, List.mem_append, List.mem_append]
      rw [mem_diffs_for_intersection path eb ea ha op,
        mem_mapping_additions path ea eb hb op,
        mem_mapping_removals path ea eb ha op]
  · intro op
    by_cases heq : Val.pset xa = Val.pset xb
    · have hee : xa = xb := by simpa using heq
      subst hee
      rw [_create_diffs_for, if_pos rfl]
      simp only [List.not_mem_nil, false_iff]
      rintro (⟨x, hx, hnx, -⟩ | ⟨x, hx, hnx, -⟩) <;> exact hnx hx
    · rw [_create_diffs_for, if_neg heq]
      show op ∈ _create_diffs_for_sets path xa xb ↔ _
      exact mem_create_diffs_for_sets path xa xb op
  · intro hne
    rw [_create_diffs_for, if_neg hne]
    have hst : sameType (Val.prec t ea) (Val.prec t eb) = true := by
      simp [sameType]
    simp [hst, _create_diffs_for_mappings]

/-- C4 witness: the map pair `a = {0: 1}`, `b = {}` (whose diff is the
single root removal of key `0`) at the `REMOVE` membership instance, with
the well-formedness side conditions checked concretely. -/
theorem c4_witness :
    DiffOp.remove [] (Val.leaf 0) ∈
      _create_diffs_for [] (Val.pmap [(Val.leaf 0, Val.leaf 1)])
        (Val.pmap []) ↔
    ((∃ k va vb, alookup [(Val.leaf 0, Val.leaf 1)] k = some va ∧
        alookup ([] : List (Val × Val)) k = some vb ∧ va ≠ vb ∧
        DiffOp.remove [] (Val.leaf 0) ∈ _create_diffs_for ([] ++ [k]) va vb) ∨
     (∃ k vb, alookup [(Val.leaf 0, Val.leaf 1)] k = none ∧
        alookup ([] : List (Val × Val)) k = some vb ∧
        DiffOp.remove [] (Val.leaf 0) = DiffOp.set ([] ++ [k]) vb) ∨
     (∃ k va, alookup [(Val.leaf 0, Val.leaf 1)] k = some va ∧
        alookup ([] : List (Val × Val)) k = none ∧
        DiffOp.remove [] (Val.leaf 0) = DiffOp.remove [] k)) :=
  (c4_diff_contents [] [(Val.leaf 0, Val.leaf 1)] [] [] [] 0 (by decide)
    (by decide)).1 (DiffOp.remove [] (Val.leaf 0))
